import Mathlib

set_option maxRecDepth 8000

/-!
Shallow embedding of the Remote-File-System client core
(`src/client/src/fuse.rs` and `src/client/src/api.rs`).

The Rust `HashMap`s guarding the registry (`inode_map : HashMap<u64, FileAttr>`,
`path_to_inode : HashMap<String, u64>`) are embedded as association lists with
the same observable operations: keyed lookup (`lookupA`), insert-or-replace
(`setA`, `HashMap::insert` / `get_mut` + field write), and the linear reverse
scan `iter().find_map(..)` used by `lookup` and `readdir` (`findPathForIno`).
Machine `u64` values are embedded as `Nat` (none of the modelled operations
wraps: inode allocation is a bare increment and sizes are only stored and
compared).  `SystemTime::now()` is an explicit `now : Nat` parameter threaded
into every operation that stamps attributes.  The remote HTTP call performed
inside `readdir` is an oracle parameter of type
`Except Unit (List DirectoryEntry)`: `.error` is a failed
`api::list_directory`, `.ok es` a successful one returning `es`.
A Rust panic (`Option::unwrap` on `None`, fuse.rs line 220) is embedded as
`Option.none` of the whole operation.
-/

/-- Kind of a filesystem entry: the two `fuser::FileType` variants the client
produces (fuse.rs line 226 maps the remote string "directory" to `Directory`
and everything else to `RegularFile`). -/
inductive FileType where
  | Directory
  | RegularFile
deriving DecidableEq, Repr

/-- The `fuser::FileAttr` record as filled in by `create_file_attr`
(fuse.rs lines 18-36); timestamps are `Nat` stamps of the local clock. -/
structure FileAttr where
  ino : Nat
  size : Nat
  blocks : Nat
  atime : Nat
  mtime : Nat
  ctime : Nat
  crtime : Nat
  kind : FileType
  perm : Nat
  nlink : Nat
  uid : Nat
  gid : Nat
  rdev : Nat
  flags : Nat
  blksize : Nat
deriving DecidableEq, Repr

/-- One JSON entry of a remote listing (`api.rs` lines 5-12). -/
structure DirectoryEntry where
  name : String
  type_ : String
  size : Nat
  modified_at : String
deriving DecidableEq, Repr

/-- Keyed lookup in an association list: first binding wins, as `HashMap::get`
on the embedded map. -/
def lookupA {α β : Type} [DecidableEq α] : List (α × β) → α → Option β
  | [], _ => none
  | (a, b) :: t, k => if a = k then some b else lookupA t k

/-- Insert-or-replace in an association list: replaces the first binding of the
key if present, otherwise appends a new binding. Embeds `HashMap::insert` and
the in-place `get_mut` field write. -/
def setA {α β : Type} [DecidableEq α] : List (α × β) → α → β → List (α × β)
  | [], k, v => [(k, v)]
  | (a, b) :: t, k, v => if a = k then (k, v) :: t else (a, b) :: setA t k v

/-- The linear reverse scan `path_to_inode.iter().find_map(|(path, &inode)| ..)`
used in fuse.rs lines 93-94 and 169 to recover the path bound to an inode. -/
def findPathForIno : List (String × Nat) → Nat → Option String
  | [], _ => none
  | (p, i) :: t, ino => if i = ino then some p else findPathForIno t ino

/-- Drop every trailing slash character, `str::trim_end_matches('/')`. -/
def trimEndSlashes (s : String) : String :=
  String.mk ((s.toList.reverse.dropWhile (fun c => c = '/')).reverse)

/-- Drop every leading slash character, `str::trim_start_matches('/')`. -/
def trimStartSlashes (s : String) : String :=
  String.mk (s.toList.dropWhile (fun c => c = '/'))

/-- The child-path construction shared by `lookup` (fuse.rs lines 100-104) and
the `readdir` merge loop (lines 213-217). -/
def joinPath (parent name : String) : String :=
  if parent = "/" then "/" ++ name
  else trimEndSlashes parent ++ "/" ++ name

/-- Parent path as computed by `Path::new(&current_path).parent()` with the
`unwrap_or("/")` default (fuse.rs lines 194-196), for the absolute slash-joined
paths the client builds. -/
def parentPath (s : String) : String :=
  let r := (s.toList.reverse.dropWhile (fun c => c ≠ '/')).dropWhile (fun c => c = '/')
  if r.isEmpty then "/" else String.mk r.reverse

/-- The reserved root inode identifier `fuser::FUSE_ROOT_ID`. -/
def FUSE_ROOT_ID : Nat := 1

/-- The `libc::ENOENT` error code replied on every failure path. -/
def ENOENT : Nat := 2

/-- Helper `create_file_attr` (fuse.rs lines 18-36): all four timestamps are
stamped with the local clock value `now`. -/
def create_file_attr (now ino : Nat) (kind : FileType) (size perm : Nat) : FileAttr :=
  { ino := ino
    size := size
    blocks := (size + 511) / 512
    atime := now
    mtime := now
    ctime := now
    crtime := now
    kind := kind
    perm := perm
    nlink := if kind = FileType.Directory then 2 else 1
    uid := 501
    gid := 20
    rdev := 0
    flags := 0
    blksize := 512 }

/-- The registry state owned by `RemoteFs` (fuse.rs lines 39-45): the attribute
map, the forward path map and the allocation counter.  The `server_addr` and
Tokio runtime fields do not participate in any registry operation and are
omitted; the network is the oracle parameter of `readdir`. -/
structure RemoteFs where
  inode_map : List (Nat × FileAttr)
  path_to_inode : List (String × Nat)
  next_inode : Nat
deriving DecidableEq, Repr

/-- Constructor `RemoteFs::new` (fuse.rs lines 48-67): binds the root path "/"
to `FUSE_ROOT_ID` with a directory attribute before anything else runs. -/
def RemoteFs.new (now : Nat) : RemoteFs :=
  { inode_map := [(FUSE_ROOT_ID, create_file_attr now FUSE_ROOT_ID FileType.Directory 0 0o755)]
    path_to_inode := [("/", FUSE_ROOT_ID)]
    next_inode := FUSE_ROOT_ID + 1 }

/-- Registry read `resolve_inode_of(path)`: the forward map lookup. -/
def resolve_inode_of (fs : RemoteFs) (p : String) : Option Nat :=
  lookupA fs.path_to_inode p

/-- Registry read `resolve_path_of(inode)`: the reverse scan over the forward
map, exactly as fuse.rs performs it. -/
def resolve_path_of (fs : RemoteFs) (k : Nat) : Option String :=
  findPathForIno fs.path_to_inode k

/-- Reply of `lookup`/`getattr`: either an entry with attributes or an errno. -/
inductive LookupReply where
  | entry (attr : FileAttr)
  | error (code : Nat)
deriving DecidableEq, Repr

/-- Kernel callback `lookup` (fuse.rs lines 80-120).  Note the
`unwrap_or_else(.. "/")` on the reverse scan: an unbound parent inode is
silently replaced by the root path. -/
def RemoteFs.lookup (fs : RemoteFs) (parent_ino : Nat) (name : String) : LookupReply :=
  let parent_path_str := (findPathForIno fs.path_to_inode parent_ino).getD "/"
  let full_path := joinPath parent_path_str name
  match lookupA fs.path_to_inode full_path with
  | some ino =>
    match lookupA fs.inode_map ino with
    | some attr => LookupReply.entry attr
    | none => LookupReply.error ENOENT
  | none => LookupReply.error ENOENT

/-- Kernel callback `getattr` (fuse.rs lines 122-134): pure registry read. -/
def RemoteFs.getattr (fs : RemoteFs) (ino : Nat) : LookupReply :=
  match lookupA fs.inode_map ino with
  | some attr => LookupReply.entry attr
  | none => LookupReply.error ENOENT

/-- The body of the `readdir` merge loop for one remote entry
(fuse.rs lines 219-234): refresh the size of an already-bound path in place, or
allocate the next inode and insert both directions.  `none` embeds the panic of
the `.unwrap()` on line 220 (path bound but inode missing). -/
def upsertChild (fs : RemoteFs) (full_entry_path type_ : String) (size now : Nat) :
    Option (Nat × FileType × RemoteFs) :=
  match lookupA fs.path_to_inode full_entry_path with
  | some existing_ino =>
    match lookupA fs.inode_map existing_ino with
    | some attr =>
      some (existing_ino, attr.kind,
        { fs with inode_map := setA fs.inode_map existing_ino { attr with size := size } })
    | none => none
  | none =>
    let new_ino := fs.next_inode
    let kind := if type_ = "directory" then FileType.Directory else FileType.RegularFile
    let perm := if kind = FileType.Directory then 0o755 else 0o644
    let attr := create_file_attr now new_ino kind size perm
    some (new_ino, kind,
      { inode_map := setA fs.inode_map new_ino attr
        path_to_inode := setA fs.path_to_inode full_entry_path new_ino
        next_inode := fs.next_inode + 1 })

/-- The `for api_entry in api_entries` merge loop of `readdir`
(fuse.rs lines 210-236), accumulating the `(inode, kind, name)` reply entries. -/
def mergeEntries (fs : RemoteFs) (cur : String) (es : List DirectoryEntry) (now : Nat) :
    Option (List (Nat × FileType × String) × RemoteFs) :=
  match es with
  | [] => some ([], fs)
  | e :: rest =>
    match upsertChild fs (joinPath cur e.name) e.type_ e.size now with
    | some (ino, kind, fs') =>
      match mergeEntries fs' cur rest now with
      | some (tail, fs'') => some ((ino, kind, e.name) :: tail, fs'')
      | none => none
    | none => none

/-- Reply of `readdir`: an ordered entry list `(ino, offset, kind, name)` as
handed to `reply.add`, or an errno. -/
inductive ReaddirReply where
  | entries (l : List (Nat × Int × FileType × String))
  | error (code : Nat)
deriving DecidableEq, Repr

/-- Path resolution at the top of `readdir` (fuse.rs lines 163-176): the root
inode is special-cased to "/", every other inode goes through the reverse scan. -/
def currentPathOf (fs : RemoteFs) (ino : Nat) : Option String :=
  if ino = FUSE_ROOT_ID then some "/" else findPathForIno fs.path_to_inode ino

/-- Inode reported for the synthetic ".." entry (fuse.rs lines 190-199). -/
def dotdotIno (fs : RemoteFs) (cur : String) : Nat :=
  if cur = "/" then FUSE_ROOT_ID
  else (lookupA fs.path_to_inode (parentPath cur)).getD FUSE_ROOT_ID

/-- The two synthetic entries "." and ".." (fuse.rs lines 188-200). -/
def baseEntries (fs : RemoteFs) (ino : Nat) (cur : String) : List (Nat × FileType × String) :=
  [(ino, FileType.Directory, "."), (dotdotIno fs cur, FileType.Directory, "..")]

/-- Pair every element with its position, `iter().enumerate()`. -/
def enumFromN {α : Type} (n : Nat) : List α → List (Nat × α)
  | [] => []
  | a :: t => (n, a) :: enumFromN (n + 1) t

/-- The `offset as usize` cast of the signed kernel offset. -/
def offsetToUsize (o : Int) : Nat :=
  (o % ((2 : Int) ^ 64)).toNat

/-- The reply-streaming loop of `readdir` (fuse.rs lines 246-254): enumerate,
skip `offset as usize` entries, and emit each with offset `i + 1`.  The kernel
reply buffer is modelled as unbounded (`reply.add` never reports full). -/
def buildReply (all : List (Nat × FileType × String)) (offset : Int) :
    List (Nat × Int × FileType × String) :=
  ((enumFromN 0 all).drop (offsetToUsize offset)).map
    (fun p => (p.2.1, ((p.1 : Int) + 1), p.2.2.1, p.2.2.2))

/-- Kernel callback `readdir` (fuse.rs lines 151-257).  The remote call is the
oracle `remote`; it is consulted exactly when `offset < 2` (the
`offset < entries_for_reply.len()` check, at which point the list holds "." and
".." only).  On a failed remote call the reply is `ENOENT` and the registry is
returned untouched. -/
def RemoteFs.readdir (fs : RemoteFs) (ino : Nat) (offset : Int)
    (remote : Except Unit (List DirectoryEntry)) (now : Nat) :
    Option (ReaddirReply × RemoteFs) :=
  match currentPathOf fs ino with
  | none => some (ReaddirReply.error ENOENT, fs)
  | some cur =>
    let base := baseEntries fs ino cur
    if offset < 2 then
      match remote with
      | Except.error _ => some (ReaddirReply.error ENOENT, fs)
      | Except.ok api_entries =>
        match mergeEntries fs cur api_entries now with
        | some (fetched, fs') => some (ReaddirReply.entries (buildReply (base ++ fetched) offset), fs')
        | none => none
    else
      some (ReaddirReply.entries (buildReply base offset), fs)

/-- One kernel request, with the oracle data a `readdir` consumes. -/
inductive FsOp where
  | lookup (parent : Nat) (name : String)
  | getattr (ino : Nat)
  | readdir (ino : Nat) (offset : Int) (remote : Except Unit (List DirectoryEntry)) (now : Nat)

/-- State effect of one kernel request: `lookup` and `getattr` only read the
locked maps; `readdir` may merge fetched entries. -/
def fsStep (fs : RemoteFs) : FsOp → Option RemoteFs
  | FsOp.lookup _ _ => some fs
  | FsOp.getattr _ => some fs
  | FsOp.readdir ino off remote now => (fs.readdir ino off remote now).map (fun r => r.2)

/-- Run a finite sequence of kernel requests from a state. -/
def fsRun (fs : RemoteFs) : List FsOp → Option RemoteFs
  | [] => some fs
  | op :: rest =>
    match fsStep fs op with
    | some fs' => fsRun fs' rest
    | none => none

/-- The fixed unreachable domain `api.rs` line 40 requests in order to
fabricate an error value on a non-success status. -/
def invalidUrl : String := "http://invalid-non-existent-server-domain-12345"

/-- URL construction of `api::list_directory` (api.rs lines 18-25). -/
def requestUrl (base_url path : String) : String :=
  trimEndSlashes base_url ++ "/list/" ++ trimStartSlashes path

/-- `reqwest::StatusCode::is_success`: the 2xx range. -/
def isSuccessStatus (s : Nat) : Prop := 200 ≤ s ∧ s ≤ 299

instance (s : Nat) : Decidable (isSuccessStatus s) := by
  unfold isSuccessStatus; infer_instance

/-- The `reqwest::Error` values `api::list_directory` can actually produce:
a connection failure against some URL (`reqwest::get` failing), or a body that
did not deserialize as `Vec<DirectoryEntry>`. -/
inductive ReqError where
  | connect (url : String)
  | decode (url : String)
deriving DecidableEq, Repr

/-- One HTTP exchange as the client observes it: transport failure, or a
response with status, body text, and the result of JSON-decoding the body. -/
inductive HttpOutcome where
  | transportError
  | response (status : Nat) (body : String) (parsed : Option (List DirectoryEntry))
deriving DecidableEq, Repr

/-- `api::list_directory` (api.rs lines 14-42) over an HTTP oracle.  On a
non-success status the code logs the status and body and then issues a fresh
`reqwest::get` against `invalidUrl` purely to manufacture an error value; that
dummy request always fails to connect, so the returned error is a connect
error to `invalidUrl`, independent of the status and body. -/
def list_directory (base_url path : String) (http : HttpOutcome) :
    Except ReqError (List DirectoryEntry) :=
  match http with
  | HttpOutcome.transportError => Except.error (ReqError.connect (requestUrl base_url path))
  | HttpOutcome.response status _ parsed =>
    if isSuccessStatus status then
      match parsed with
      | some entries => Except.ok entries
      | none => Except.error (ReqError.decode (requestUrl base_url path))
    else
      Except.error (ReqError.connect invalidUrl)

/-- Replace the size field of an attribute record. -/
def withSize (a : FileAttr) (s : Nat) : FileAttr := { a with size := s }

/-- Frame relation between registry states: every existing path binding is
still present and unchanged, and every existing attribute record is still
present with at most its size field changed. -/
def Extends (fs fs' : RemoteFs) : Prop :=
  (∀ p i, lookupA fs.path_to_inode p = some i → lookupA fs'.path_to_inode p = some i) ∧
  (∀ k a, lookupA fs.inode_map k = some a →
    ∃ a', lookupA fs'.inode_map k = some a' ∧ withSize a' a.size = a)

/-- The registry invariant maintained by every operation: distinct inode keys,
distinct path keys, distinct bound inodes (injectivity), every attribute
record carries its own key and is below the allocation counter and reachable
from some path, and every path binding targets a live attribute record below
the counter. -/
def RegInv (fs : RemoteFs) : Prop :=
  (fs.inode_map.map Prod.fst).Nodup ∧
  (fs.path_to_inode.map Prod.fst).Nodup ∧
  (fs.path_to_inode.map Prod.snd).Nodup ∧
  (∀ e ∈ fs.inode_map,
    e.2.ino = e.1 ∧ e.1 < fs.next_inode ∧ ∃ q ∈ fs.path_to_inode, q.2 = e.1) ∧
  (∀ q ∈ fs.path_to_inode, q.2 < fs.next_inode ∧ ∃ e ∈ fs.inode_map, e.1 = q.2)

instance (fs : RemoteFs) : Decidable (RegInv fs) := by
  unfold RegInv; infer_instance

/-- Pointwise equality of two remote listings on every field except
`modified_at`. -/
def sameShape : List DirectoryEntry → List DirectoryEntry → Bool
  | [], [] => true
  | e :: t, e' :: t' =>
    e.name == e'.name && e.type_ == e'.type_ && e.size == e'.size && sameShape t t'
  | _, _ => false

/-- Concrete session: one `readdir(root, 0)` whose remote listing returns the
two entries of the mock server's root. -/
def scenarioOps : List FsOp :=
  [FsOp.readdir FUSE_ROOT_ID 0
    (Except.ok [DirectoryEntry.mk "Documents" "directory" 0 "2024-05-22T10:00:00Z",
      DirectoryEntry.mk "image.jpg" "file" 102400 "2024-05-22T11:30:00Z"]) 0]

/-- Registry state reached by `scenarioOps` from a fresh filesystem. -/
def fsScenario : RemoteFs :=
  (fsRun (RemoteFs.new 0) scenarioOps).getD (RemoteFs.new 0)

/-- A follow-up session re-observing "/Documents" with a different size. -/
def reobserveOps : List FsOp :=
  [FsOp.readdir FUSE_ROOT_ID 0
    (Except.ok [DirectoryEntry.mk "Documents" "directory" 7 "2024-05-23T10:00:00Z"]) 5]

/-- Registry state reached by `reobserveOps` from `fsScenario`. -/
def fsReobserved : RemoteFs :=
  (fsRun fsScenario reobserveOps).getD fsScenario

/-- C8: immediately after construction, "/" resolves to the reserved root inode
and the attribute map holds a directory record for it, with no fetch having
run. -/
theorem root_available (now : Nat) :
    resolve_inode_of (RemoteFs.new now) "/" = some FUSE_ROOT_ID ∧
    ∃ a, lookupA (RemoteFs.new now).inode_map FUSE_ROOT_ID = some a ∧
      a.kind = FileType.Directory ∧ a.ino = FUSE_ROOT_ID := by
  refine ⟨rfl, create_file_attr now FUSE_ROOT_ID FileType.Directory 0 0o755, ?_, rfl, rfl⟩
  simp [RemoteFs.new, lookupA]

/-- Looking up the key just set yields the new value. -/
theorem lookupA_setA_self {α β : Type} [DecidableEq α] (l : List (α × β)) (k : α) (v : β) :
    lookupA (setA l k v) k = some v := by
  induction l with
  | nil => simp [setA, lookupA]
  | cons hd t ih =>
    obtain ⟨a, b⟩ := hd
    by_cases h : a = k
    · simp [setA, h, lookupA]
    · simp [setA, h, lookupA, ih]

/-- Setting one key leaves lookups of other keys unchanged. -/
theorem lookupA_setA_ne {α β : Type} [DecidableEq α] (l : List (α × β)) (k : α) (v : β)
    (k' : α) (h : k' ≠ k) : lookupA (setA l k v) k' = lookupA l k' := by
  induction l with
  | nil => simp [setA, lookupA, Ne.symm h]
  | cons hd t ih =>
    obtain ⟨a, b⟩ := hd
    by_cases ha : a = k
    · subst ha
      simp [setA, lookupA, Ne.symm h]
    · simp [setA, ha, lookupA, ih]

/-- Setting an absent key appends the binding at the end. -/
theorem setA_eq_append {α β : Type} [DecidableEq α] (l : List (α × β)) (k : α) (v : β)
    (h : lookupA l k = none) : setA l k v = l ++ [(k, v)] := by
  induction l with
  | nil => simp [setA]
  | cons hd t ih =>
    obtain ⟨a, b⟩ := hd
    by_cases ha : a = k
    · simp [lookupA, ha] at h
    · simp [lookupA, ha] at h
      simp [setA, ha, ih h]

/-- A successful lookup is stable under appending on the right. -/
theorem lookupA_append_left {α β : Type} [DecidableEq α] (l l' : List (α × β)) (k : α) (v : β)
    (h : lookupA l k = some v) : lookupA (l ++ l') k = some v := by
  induction l with
  | nil => simp [lookupA] at h
  | cons hd t ih =>
    obtain ⟨a, b⟩ := hd
    by_cases ha : a = k
    · simp [lookupA, ha] at h ⊢; exact h
    · simp [lookupA, ha] at h ⊢; exact ih h

/-- Rewriting a key with the value it already holds is the identity. -/
theorem setA_self_eq {α β : Type} [DecidableEq α] (l : List (α × β)) (k : α) (v : β)
    (h : lookupA l k = some v) : setA l k v = l := by
  induction l with
  | nil => simp [lookupA] at h
  | cons hd t ih =>
    obtain ⟨a, b⟩ := hd
    by_cases ha : a = k
    · subst ha
      simp [lookupA] at h
      simp [setA, h]
    · simp [lookupA, ha] at h
      simp [setA, ha, ih h]

/-- A successful lookup certifies membership. -/
theorem mem_of_lookupA {α β : Type} [DecidableEq α] (l : List (α × β)) (k : α) (v : β)
    (h : lookupA l k = some v) : (k, v) ∈ l := by
  induction l with
  | nil => simp [lookupA] at h
  | cons hd t ih =>
    obtain ⟨a, b⟩ := hd
    by_cases ha : a = k
    · subst ha
      simp [lookupA] at h
      simp [h]
    · simp [lookupA, ha] at h
      exact List.mem_cons_of_mem _ (ih h)

/-- With distinct keys, membership determines the lookup. -/
theorem lookupA_of_mem_nodup {α β : Type} [DecidableEq α] (l : List (α × β))
    (hnd : (l.map Prod.fst).Nodup) (k : α) (v : β) (hm : (k, v) ∈ l) :
    lookupA l k = some v := by
  induction l with
  | nil => simp at hm
  | cons hd t ih =>
    obtain ⟨a, b⟩ := hd
    simp only [List.map_cons, List.nodup_cons] at hnd
    rcases List.mem_cons.mp hm with h1 | h2
    · injection h1 with h1a h1b
      subst h1a
      subst h1b
      simp [lookupA]
    · have hmem : k ∈ t.map Prod.fst := List.mem_map.mpr ⟨(k, v), h2, rfl⟩
      have hak : a ≠ k := fun h => hnd.1 (by rw [h]; exact hmem)
      simp [lookupA, hak, ih hnd.2 h2]

/-- A key below every key of the list is absent. -/
theorem lookupA_none_of_keys_lt (l : List (Nat × FileAttr)) (n : Nat)
    (h : ∀ e ∈ l, e.1 < n) : lookupA l n = none := by
  induction l with
  | nil => simp [lookupA]
  | cons hd t ih =>
    obtain ⟨a, b⟩ := hd
    have ha : a < n := h (a, b) (List.mem_cons_self _ _)
    have : a ≠ n := Nat.ne_of_lt ha
    simp [lookupA, this]
    exact ih fun e he => h e (List.mem_cons_of_mem _ he)

/-- Elements of `setA l k v` come from `l` or are the new binding. -/
theorem mem_setA_elim {α β : Type} [DecidableEq α] (l : List (α × β)) (k : α) (v : β)
    (x : α × β) (h : x ∈ setA l k v) : x ∈ l ∨ x = (k, v) := by
  induction l with
  | nil => simp [setA] at h; simp [h]
  | cons hd t ih =>
    obtain ⟨a, b⟩ := hd
    by_cases ha : a = k
    · simp [setA, ha] at h
      rcases h with h | h
      · right; simp [h]
      · left; exact List.mem_cons_of_mem _ h
    · simp [setA, ha] at h
      rcases h with h | h
      · left; simp [h]
      · rcases ih h with h' | h'
        · left; exact List.mem_cons_of_mem _ h'
        · right; exact h'

/-- An element whose key differs from the set key survives `setA`. -/
theorem mem_setA_of_mem_ne {α β : Type} [DecidableEq α] (l : List (α × β)) (k : α) (v : β)
    (x : α × β) (hx : x ∈ l) (h : x.1 ≠ k) : x ∈ setA l k v := by
  induction l with
  | nil => simp at hx
  | cons hd t ih =>
    obtain ⟨a, b⟩ := hd
    by_cases ha : a = k
    · subst ha
      rcases List.mem_cons.mp hx with h1 | h2
      · exact absurd (congrArg Prod.fst h1) h
      · simp [setA]
        exact Or.inr h2
    · rcases List.mem_cons.mp hx with h1 | h2
      · simp [setA, ha, h1]
      · simp [setA, ha]
        exact Or.inr (ih h2)

/-- Setting a present key leaves the key list unchanged. -/
theorem keys_setA_of_lookup_some {α β : Type} [DecidableEq α] (l : List (α × β)) (k : α)
    (v w : β) (h : lookupA l k = some w) :
    (setA l k v).map Prod.fst = l.map Prod.fst := by
  induction l with
  | nil => simp [lookupA] at h
  | cons hd t ih =>
    obtain ⟨a, b⟩ := hd
    by_cases ha : a = k
    · subst ha; simp [setA]
    · simp [lookupA, ha] at h
      simp [setA, ha, ih h]

/-- A successful reverse scan certifies membership of the pair. -/
theorem findPathForIno_mem (l : List (String × Nat)) (i : Nat) (p : String)
    (h : findPathForIno l i = some p) : (p, i) ∈ l := by
  induction l with
  | nil => simp [findPathForIno] at h
  | cons hd t ih =>
    obtain ⟨q, j⟩ := hd
    by_cases hj : j = i
    · subst hj
      simp [findPathForIno] at h
      simp [h]
    · simp [findPathForIno, hj] at h
      exact List.mem_cons_of_mem _ (ih h)

/-- If some pair carries the inode, the reverse scan succeeds with a pair that
carries it. -/
theorem findPathForIno_some_of_exists (l : List (String × Nat)) (i : Nat)
    (h : ∃ q ∈ l, q.2 = i) : ∃ p, findPathForIno l i = some p ∧ (p, i) ∈ l := by
  induction l with
  | nil => simp at h
  | cons hd t ih =>
    obtain ⟨q, j⟩ := hd
    by_cases hj : j = i
    · subst hj
      exact ⟨q, by simp [findPathForIno], List.mem_cons_self _ _⟩
    · have h' : ∃ q ∈ t, q.2 = i := by
        rcases h with ⟨x, hx, hxi⟩
        rcases List.mem_cons.mp hx with h1 | h2
        · rw [h1] at hxi
          exact absurd hxi hj
        · exact ⟨x, h2, hxi⟩
      rcases ih h' with ⟨p, hp, hpm⟩
      exact ⟨p, by simp [findPathForIno, hj, hp], List.mem_cons_of_mem _ hpm⟩

/-- A key is absent exactly when no binding carries it. -/
theorem lookupA_none_iff {α β : Type} [DecidableEq α] (l : List (α × β)) (k : α) :
    lookupA l k = none ↔ k ∉ l.map Prod.fst := by
  induction l with
  | nil => simp [lookupA]
  | cons hd t ih =>
    obtain ⟨a, b⟩ := hd
    by_cases ha : a = k
    · subst ha
      simp [lookupA]
    · simp [lookupA, ha, ih, Ne.symm ha]

/-- Rewriting the size with the size already held is the identity. -/
theorem withSize_self (a : FileAttr) : withSize a a.size = a := by
  cases a; rfl

/-- Two successive size rewrites collapse to the last one. -/
theorem withSize_withSize (a : FileAttr) (s t : Nat) :
    withSize (withSize a s) t = withSize a t := by
  cases a; rfl

/-- The frame relation is reflexive. -/
theorem extends_refl (fs : RemoteFs) : Extends fs fs :=
  ⟨fun _ _ h => h, fun _ a h => ⟨a, h, withSize_self a⟩⟩

/-- The frame relation is transitive. -/
theorem extends_trans {fs1 fs2 fs3 : RemoteFs} (h12 : Extends fs1 fs2)
    (h23 : Extends fs2 fs3) : Extends fs1 fs3 := by
  refine ⟨fun p i h => h23.1 p i (h12.1 p i h), fun k a h => ?_⟩
  obtain ⟨a', ha', hw'⟩ := h12.2 k a h
  obtain ⟨a'', ha'', hw''⟩ := h23.2 k a' ha'
  refine ⟨a'', ha'', ?_⟩
  calc withSize a'' a.size = withSize (withSize a'' a'.size) a.size := by
        rw [withSize_withSize]
    _ = withSize a' a.size := by rw [hw'']
    _ = a := hw'

/-- The freshly constructed registry satisfies the invariant. -/
theorem regInv_new (now : Nat) : RegInv (RemoteFs.new now) := by
  refine ⟨?_, ?_, ?_, ?_, ?_⟩ <;>
    simp [RegInv, RemoteFs.new, create_file_attr, FUSE_ROOT_ID]

/-- Membership of a pair with distinct keys determines the lookup, pair form. -/
theorem lookupA_of_mem_nodup_pair {α β : Type} [DecidableEq α] (l : List (α × β))
    (hnd : (l.map Prod.fst).Nodup) (x : α × β) (hm : x ∈ l) :
    lookupA l x.1 = some x.2 := by
  obtain ⟨a, b⟩ := x
  exact lookupA_of_mem_nodup l hnd a b hm

/-- The upsert step preserves the invariant, extends the registry, never moves
the counter backwards, and leaves the observed path bound to the returned
inode. -/
theorem upsertChild_spec (fs : RemoteFs) (path type_ : String) (size now : Nat)
    (hInv : RegInv fs) :
    ∃ ino kind fs', upsertChild fs path type_ size now = some (ino, kind, fs') ∧
      RegInv fs' ∧ Extends fs fs' ∧ fs.next_inode ≤ fs'.next_inode ∧
      lookupA fs'.path_to_inode path = some ino := by
  obtain ⟨hnd1, hnd2, hnd3, hattr, hpath⟩ := hInv
  cases hcase : lookupA fs.path_to_inode path with
  | some existing =>
    have hmem : (path, existing) ∈ fs.path_to_inode := mem_of_lookupA _ _ _ hcase
    obtain ⟨hlt, e, hem, hee⟩ := hpath _ hmem
    have hlt' : existing < fs.next_inode := hlt
    have hattr_lookup : lookupA fs.inode_map existing = some e.2 := by
      have h0 : lookupA fs.inode_map e.1 = some e.2 :=
        lookupA_of_mem_nodup_pair fs.inode_map hnd1 e hem
      rw [hee] at h0
      exact h0
    refine ⟨existing, e.2.kind,
      { fs with inode_map := setA fs.inode_map existing (withSize e.2 size) },
      ?_, ?_, ?_, ?_, ?_⟩
    · simp [upsertChild, hcase, hattr_lookup, withSize]
    · refine ⟨?_, hnd2, hnd3, ?_, ?_⟩
      · rw [keys_setA_of_lookup_some fs.inode_map existing _ e.2 hattr_lookup]
        exact hnd1
      · intro x hx
        rcases mem_setA_elim _ _ _ _ hx with hx' | hx'
        · exact hattr x hx'
        · subst hx'
          refine ⟨?_, hlt', ⟨(path, existing), hmem, rfl⟩⟩
          have h1 : e.2.ino = e.1 := (hattr e hem).1
          show (withSize e.2 size).ino = existing
          have h2 : (withSize e.2 size).ino = e.2.ino := rfl
          rw [h2, h1, hee]
      · intro q hq
        obtain ⟨hq1, e', he', he'1⟩ := hpath q hq
        refine ⟨hq1, ?_⟩
        by_cases hcol : e'.1 = existing
        · refine ⟨(existing, withSize e.2 size),
            mem_of_lookupA _ _ _
              (lookupA_setA_self fs.inode_map existing (withSize e.2 size)), ?_⟩
          show existing = q.2
          rw [← hcol]
          exact he'1
        · exact ⟨e', mem_setA_of_mem_ne _ _ _ e' he' hcol, he'1⟩
    · refine ⟨fun p i h => h, fun k a h => ?_⟩
      by_cases hk : k = existing
      · subst hk
        rw [hattr_lookup] at h
        injection h with h
        subst h
        refine ⟨withSize e.2 size, lookupA_setA_self _ _ _, ?_⟩
        rw [withSize_withSize]
        exact withSize_self e.2
      · exact ⟨a, by rw [lookupA_setA_ne _ _ _ _ hk]; exact h, withSize_self a⟩
    · exact Nat.le_refl _
    · exact hcase
  | none =>
    set n := fs.next_inode with hn
    set kind := (if type_ = "directory" then FileType.Directory else FileType.RegularFile)
      with hkind
    set perm := (if kind = FileType.Directory then 0o755 else 0o644) with hperm
    set attr := create_file_attr now n kind size perm with hattr_def
    have him_none : lookupA fs.inode_map n = none :=
      lookupA_none_of_keys_lt fs.inode_map n (fun e he => (hattr e he).2.1)
    have him_app : setA fs.inode_map n attr = fs.inode_map ++ [(n, attr)] :=
      setA_eq_append _ _ _ him_none
    have hpm_app : setA fs.path_to_inode path n = fs.path_to_inode ++ [(path, n)] :=
      setA_eq_append _ _ _ hcase
    have hn_not_key : n ∉ fs.inode_map.map Prod.fst := by
      intro hm
      rcases List.mem_map.mp hm with ⟨e, he, hfst⟩
      have h1 := (hattr e he).2.1
      rw [hfst] at h1
      exact Nat.lt_irrefl n h1
    have hn_not_val : n ∉ fs.path_to_inode.map Prod.snd := by
      intro hm
      rcases List.mem_map.mp hm with ⟨q, hq, hsnd⟩
      have h1 := (hpath q hq).1
      rw [hsnd] at h1
      exact Nat.lt_irrefl n h1
    have hpath_not_key : path ∉ fs.path_to_inode.map Prod.fst :=
      (lookupA_none_iff _ _).mp hcase
    refine ⟨n, kind,
      { inode_map := setA fs.inode_map n attr
        path_to_inode := setA fs.path_to_inode path n
        next_inode := n + 1 }, ?_, ?_, ?_, ?_, ?_⟩
    · simp [upsertChild, hcase, ← hn, ← hkind, ← hperm, ← hattr_def]
    · refine ⟨?_, ?_, ?_, ?_, ?_⟩
      · show ((setA fs.inode_map n attr).map Prod.fst).Nodup
        rw [him_app, List.map_append]
        refine List.Nodup.append hnd1 (List.nodup_singleton _) ?_
        intro x hx hx'
        simp only [List.map_cons, List.map_nil, List.mem_singleton] at hx'
        subst hx'
        exact hn_not_key hx
      · show ((setA fs.path_to_inode path n).map Prod.fst).Nodup
        rw [hpm_app, List.map_append]
        refine List.Nodup.append hnd2 (List.nodup_singleton _) ?_
        intro x hx hx'
        simp only [List.map_cons, List.map_nil, List.mem_singleton] at hx'
        subst hx'
        exact hpath_not_key hx
      · show ((setA fs.path_to_inode path n).map Prod.snd).Nodup
        rw [hpm_app, List.map_append]
        refine List.Nodup.append hnd3 (List.nodup_singleton _) ?_
        intro x hx hx'
        simp only [List.map_cons, List.map_nil, List.mem_singleton] at hx'
        subst hx'
        exact hn_not_val hx
      · intro x hx
        show x.2.ino = x.1 ∧ x.1 < n + 1 ∧ _
        rw [him_app] at hx
        rcases List.mem_append.mp hx with hx' | hx'
        · obtain ⟨h1, h2, e', he', he'1⟩ := hattr x hx'
          refine ⟨h1, Nat.lt_succ_of_lt h2, e', ?_, he'1⟩
          show e' ∈ setA fs.path_to_inode path n
          rw [hpm_app]
          exact List.mem_append_left _ he'
        · simp only [List.mem_singleton] at hx'
          subst hx'
          refine ⟨rfl, Nat.lt_succ_self n, (path, n), ?_, rfl⟩
          show (path, n) ∈ setA fs.path_to_inode path n
          rw [hpm_app]
          exact List.mem_append_right _ (List.mem_singleton.mpr rfl)
      · intro q hq
        show q.2 < n + 1 ∧ _
        rw [hpm_app] at hq
        rcases List.mem_append.mp hq with hq' | hq'
        · obtain ⟨h1, e', he', he'1⟩ := hpath q hq'
          refine ⟨Nat.lt_succ_of_lt h1, e', ?_, he'1⟩
          show e' ∈ setA fs.inode_map n attr
          rw [him_app]
          exact List.mem_append_left _ he'
        · simp only [List.mem_singleton] at hq'
          subst hq'
          refine ⟨Nat.lt_succ_self n, (n, attr), ?_, rfl⟩
          show (n, attr) ∈ setA fs.inode_map n attr
          rw [him_app]
          exact List.mem_append_right _ (List.mem_singleton.mpr rfl)
    · refine ⟨fun p i h => ?_, fun k a h => ?_⟩
      · show lookupA (setA fs.path_to_inode path n) p = some i
        rw [hpm_app]
        exact lookupA_append_left _ _ _ _ h
      · refine ⟨a, ?_, withSize_self a⟩
        show lookupA (setA fs.inode_map n attr) k = some a
        rw [him_app]
        exact lookupA_append_left _ _ _ _ h
    · exact Nat.le_succ _
    · exact lookupA_setA_self _ _ _

/-- The whole merge loop succeeds under the invariant, preserves it, extends
the registry, echoes the remote names in order, and reports for each entry the
inode the final registry binds to its path. -/
theorem mergeEntries_spec (es : List DirectoryEntry) :
    ∀ fs cur now, RegInv fs →
    ∃ r fs', mergeEntries fs cur es now = some (r, fs') ∧ RegInv fs' ∧ Extends fs fs' ∧
      r.map (fun x => x.2.2) = es.map DirectoryEntry.name ∧
      (∀ x ∈ r, lookupA fs'.path_to_inode (joinPath cur x.2.2) = some x.1) := by
  induction es with
  | nil =>
    intro fs cur now hInv
    exact ⟨[], fs, rfl, hInv, extends_refl fs, rfl, by simp⟩
  | cons e rest ih =>
    intro fs cur now hInv
    obtain ⟨ino, kind, fs1, hup, hInv1, hext1, _, hbind⟩ :=
      upsertChild_spec fs (joinPath cur e.name) e.type_ e.size now hInv
    obtain ⟨tail, fs2, hmrg, hInv2, hext2, hnames, hbinds⟩ := ih fs1 cur now hInv1
    refine ⟨(ino, kind, e.name) :: tail, fs2, ?_, hInv2, extends_trans hext1 hext2, ?_, ?_⟩
    · simp [mergeEntries, hup, hmrg]
    · simp [hnames]
    · intro x hx
      rcases List.mem_cons.mp hx with hx' | hx'
      · subst hx'
        exact hext2.1 _ _ hbind
      · exact hbinds x hx'

/-- A `readdir` call never panics under the invariant, preserves it, and only
extends the registry. -/
theorem readdir_spec (fs : RemoteFs) (ino : Nat) (offset : Int)
    (remote : Except Unit (List DirectoryEntry)) (now : Nat) (hInv : RegInv fs) :
    ∃ rep fs', fs.readdir ino offset remote now = some (rep, fs') ∧
      RegInv fs' ∧ Extends fs fs' := by
  cases hc : currentPathOf fs ino with
  | none =>
    refine ⟨ReaddirReply.error ENOENT, fs, ?_, hInv, extends_refl fs⟩
    simp [RemoteFs.readdir, hc]
  | some cur =>
    by_cases hoff : offset < 2
    · cases remote with
      | error err =>
        refine ⟨ReaddirReply.error ENOENT, fs, ?_, hInv, extends_refl fs⟩
        simp [RemoteFs.readdir, hc, hoff]
      | ok es =>
        obtain ⟨r, fs', hmrg, hInv', hext, _, _⟩ := mergeEntries_spec es fs cur now hInv
        refine ⟨ReaddirReply.entries (buildReply (baseEntries fs ino cur ++ r) offset),
          fs', ?_, hInv', hext⟩
        simp [RemoteFs.readdir, hc, hoff, hmrg]
    · refine ⟨ReaddirReply.entries (buildReply (baseEntries fs ino cur) offset),
        fs, ?_, hInv, extends_refl fs⟩
      simp [RemoteFs.readdir, hc, hoff]

/-- One kernel request preserves the invariant and only extends the registry. -/
theorem fsStep_spec (fs : RemoteFs) (op : FsOp) (hInv : RegInv fs) :
    ∃ fs', fsStep fs op = some fs' ∧ RegInv fs' ∧ Extends fs fs' := by
  cases op with
  | lookup p nm => exact ⟨fs, rfl, hInv, extends_refl fs⟩
  | getattr i => exact ⟨fs, rfl, hInv, extends_refl fs⟩
  | readdir i off remote now =>
    obtain ⟨rep, fs', h, hInv', hext⟩ := readdir_spec fs i off remote now hInv
    exact ⟨fs', by simp [fsStep, h], hInv', hext⟩

/-- Any completed run of kernel requests preserves the invariant and only
extends the registry. -/
theorem fsRun_spec (ops : List FsOp) :
    ∀ fs fs', RegInv fs → fsRun fs ops = some fs' → RegInv fs' ∧ Extends fs fs' := by
  induction ops with
  | nil =>
    intro fs fs' hInv h
    simp [fsRun] at h
    subst h
    exact ⟨hInv, extends_refl fs⟩
  | cons op rest ih =>
    intro fs fs' hInv h
    unfold fsRun at h
    cases hstep : fsStep fs op with
    | none => rw [hstep] at h; cases h
    | some fs1 =>
      rw [hstep] at h
      obtain ⟨fs1', heq, hInv1, hext1⟩ := fsStep_spec fs op hInv
      rw [heq] at hstep
      injection hstep with hstep
      subst hstep
      obtain ⟨hInv2, hext2⟩ := ih fs1' fs' hInv1 h
      exact ⟨hInv2, extends_trans hext1 hext2⟩

/-- C1: after any finite sequence of lookup, get_attributes and read_directory
calls from construction, every inode k in the attribute map carries inode k in
its stored record, exactly one path maps to k, and resolving k to its path and
back yields k again. -/
theorem registry_bijection (now : Nat) (ops : List FsOp) (fs : RemoteFs)
    (k : Nat) (a : FileAttr)
    (hrun : fsRun (RemoteFs.new now) ops = some fs)
    (ha : lookupA fs.inode_map k = some a) :
    a.ino = k ∧
    (∃! p, lookupA fs.path_to_inode p = some k) ∧
    (∃ p, resolve_path_of fs k = some p ∧ resolve_inode_of fs p = some k) := by
  obtain ⟨hInv, -⟩ := fsRun_spec ops (RemoteFs.new now) fs (regInv_new now) hrun
  obtain ⟨hnd1, hnd2, hnd3, hattr, hpath⟩ := hInv
  have hm : (k, a) ∈ fs.inode_map := mem_of_lookupA _ _ _ ha
  obtain ⟨hino, hlt, q, hq, hq2⟩ := hattr _ hm
  have hq2' : q.2 = k := hq2
  have hlook : lookupA fs.path_to_inode q.1 = some k := by
    have h0 := lookupA_of_mem_nodup_pair fs.path_to_inode hnd2 q hq
    rw [hq2'] at h0
    exact h0
  refine ⟨hino, ⟨q.1, hlook, ?_⟩, ?_⟩
  · intro p' hp'
    have hx : (p', k) ∈ fs.path_to_inode := mem_of_lookupA _ _ _ hp'
    have hqpair : q = (q.1, k) := by
      rw [← hq2']
    have hq' : (q.1, k) ∈ fs.path_to_inode := hqpair ▸ hq
    have heq : (p', k) = (q.1, k) :=
      List.inj_on_of_nodup_map hnd3 hx hq' rfl
    exact congrArg Prod.fst heq
  · obtain ⟨p, hfind, hpm⟩ := findPathForIno_some_of_exists fs.path_to_inode k ⟨q, hq, hq2'⟩
    exact ⟨p, hfind, lookupA_of_mem_nodup fs.path_to_inode hnd2 p k hpm⟩

/-- Closed instance of the bijection property at a concrete session. -/
theorem registry_bijection_witness :
    ∃ a, lookupA fsScenario.inode_map 2 = some a ∧ a.ino = 2 ∧
      (∃! p, lookupA fsScenario.path_to_inode p = some 2) ∧
      (∃ p, resolve_path_of fsScenario 2 = some p ∧
        resolve_inode_of fsScenario p = some 2) := by
  have hrun : fsRun (RemoteFs.new 0) scenarioOps = some fsScenario := rfl
  have ha : lookupA fsScenario.inode_map 2 =
      some (create_file_attr 0 2 FileType.Directory 0 0o755) := rfl
  obtain ⟨h1, h2, h3⟩ := registry_bijection 0 scenarioOps fsScenario 2 _ hrun ha
  exact ⟨_, ha, h1, h2, h3⟩

/-- C2: when the remote list call inside read_directory fails, the whole call
replies with an error, streams no entries, and hands back the registry
exactly as it was: same inode map, same path map, same counter. -/
theorem readdir_error_atomic (fs : RemoteFs) (ino : Nat) (offset : Int) (err : Unit)
    (now : Nat) (hoff : offset < 2) :
    fs.readdir ino offset (Except.error err) now =
      some (ReaddirReply.error ENOENT, fs) := by
  cases hc : currentPathOf fs ino with
  | none => simp [RemoteFs.readdir, hc]
  | some cur => simp [RemoteFs.readdir, hc, hoff]

/-- Closed instance of read_directory error atomicity. -/
theorem readdir_error_atomic_witness :
    (RemoteFs.new 0).readdir FUSE_ROOT_ID 0 (Except.error ()) 7 =
      some (ReaddirReply.error ENOENT, RemoteFs.new 0) :=
  readdir_error_atomic (RemoteFs.new 0) FUSE_ROOT_ID 0 () 7 (by decide)

/-- C7: across any further completed operations, every existing path binding
keeps its inode, and every existing attribute record keeps everything but its
size — in particular its inode and kind are immutable. -/
theorem frame_reobservation (now : Nat) (ops ops2 : List FsOp) (fs fs' : RemoteFs)
    (hrun : fsRun (RemoteFs.new now) ops = some fs)
    (hrun2 : fsRun fs ops2 = some fs') :
    (∀ p i, lookupA fs.path_to_inode p = some i → lookupA fs'.path_to_inode p = some i) ∧
    (∀ k a, lookupA fs.inode_map k = some a →
      ∃ a', lookupA fs'.inode_map k = some a' ∧ withSize a' a.size = a) := by
  obtain ⟨hInv, -⟩ := fsRun_spec ops (RemoteFs.new now) fs (regInv_new now) hrun
  exact (fsRun_spec ops2 fs fs' hInv hrun2).2

/-- Closed instance of the frame property: "/Documents" keeps inode 2 and its
directory kind across a re-observation that changes its size. -/
theorem frame_reobservation_witness :
    lookupA fsReobserved.path_to_inode "/Documents" = some 2 ∧
    ∃ a', lookupA fsReobserved.inode_map 2 = some a' ∧
      withSize a' (create_file_attr 0 2 FileType.Directory 0 0o755).size =
        create_file_attr 0 2 FileType.Directory 0 0o755 := by
  have h := frame_reobservation 0 scenarioOps reobserveOps fsScenario fsReobserved rfl rfl
  exact ⟨h.1 "/Documents" 2 rfl, h.2 2 _ rfl⟩

/-- C3 counterexample: in the state reached by one successful root listing,
inode 999 has no binding, yet lookup(999, "Documents") succeeds with the
attributes of "/Documents" — the child name was resolved against the root
directory substituted for the missing parent — instead of failing with a
stale-handle error. -/
theorem lookup_stale_counterexample :
    resolve_path_of fsScenario 999 = none ∧
    RemoteFs.lookup fsScenario 999 "Documents" =
      LookupReply.entry (create_file_attr 0 2 FileType.Directory 0 0o755) :=
  ⟨rfl, rfl⟩

/-- C3 amended: for every lookup whose parent inode has no binding, the code
does not fail with a stale-handle error; it substitutes "/" for the missing
parent path and resolves the child name against the root directory, replying
not-found only when the resulting root-relative path is unbound. -/
theorem lookup_unbound_parent_defaults_root (fs : RemoteFs) (parent : Nat)
    (name : String) (h : resolve_path_of fs parent = none) :
    RemoteFs.lookup fs parent name =
      (match lookupA fs.path_to_inode (joinPath "/" name) with
       | some ino =>
         match lookupA fs.inode_map ino with
         | some attr => LookupReply.entry attr
         | none => LookupReply.error ENOENT
       | none => LookupReply.error ENOENT) := by
  unfold RemoteFs.lookup
  rw [show findPathForIno fs.path_to_inode parent = none from h]
  rfl

/-- Closed instance of the amended lookup behaviour. -/
theorem lookup_unbound_parent_defaults_root_witness :
    resolve_path_of (RemoteFs.new 0) 999 = none ∧
    RemoteFs.lookup (RemoteFs.new 0) 999 "ghost.txt" =
      (match lookupA (RemoteFs.new 0).path_to_inode (joinPath "/" "ghost.txt") with
       | some ino =>
         match lookupA (RemoteFs.new 0).inode_map ino with
         | some attr => LookupReply.entry attr
         | none => LookupReply.error ENOENT
       | none => LookupReply.error ENOENT) :=
  ⟨rfl, lookup_unbound_parent_defaults_root (RemoteFs.new 0) 999 "ghost.txt" rfl⟩

/-- C4 counterexample: two non-success responses with different status codes
and different bodies make `list_directory` return the very same error value,
so the returned fetch error carries neither the status code nor the body and
does not identify the particular non-success response. -/
theorem fetch_error_counterexample :
    list_directory "http://localhost:3000" "" (HttpOutcome.response 404 "missing" none) =
      list_directory "http://localhost:3000" "" (HttpOutcome.response 500 "boom" none) ∧
    (404 : Nat) ≠ 500 ∧ "missing" ≠ "boom" ∧
    list_directory "http://localhost:3000" "" (HttpOutcome.response 404 "missing" none) =
      Except.error (ReqError.connect invalidUrl) :=
  ⟨rfl, by decide, by decide, rfl⟩

/-- C4 amended: on any non-success status, `list_directory` logs the status
and body but returns a transport-style connect error manufactured by a dummy
request to the fixed invalid URL, independent of the status code and body;
only transport failure and malformed-body failure remain distinguishable. -/
theorem fetch_nonsuccess_dummy (base_url path body : String) (status : Nat)
    (parsed : Option (List DirectoryEntry)) (h : ¬ isSuccessStatus status) :
    list_directory base_url path (HttpOutcome.response status body parsed) =
      Except.error (ReqError.connect invalidUrl) := by
  simp [list_directory, h]

/-- Closed instance of the amended fetch-error behaviour. -/
theorem fetch_nonsuccess_dummy_witness :
    ¬ isSuccessStatus 503 ∧
    list_directory "http://localhost:3000" "folder1"
        (HttpOutcome.response 503 "Service Unavailable" none) =
      Except.error (ReqError.connect invalidUrl) :=
  ⟨by decide, fetch_nonsuccess_dummy "http://localhost:3000" "folder1"
    "Service Unavailable" 503 none (by decide)⟩

/-- C5: on a fresh filesystem, readdir(root, 0) over the remote listing
[Documents directory 0, image.jpg file 102400] yields exactly
(root, "."), (root, ".."), (id1, "Documents"), (id2, "image.jpg") with
id1 ≠ id2, both freshly allocated strictly above the root inode (id1 is the
fresh counter value, id2 the next); and for any root readdir at offset 0 the
reply always starts with "." and ".." both carrying the root inode. -/
theorem scenario1 (now : Nat) (m1 m2 : String) :
    (∃ id1 id2 fs',
      (RemoteFs.new now).readdir FUSE_ROOT_ID 0
          (Except.ok [DirectoryEntry.mk "Documents" "directory" 0 m1,
            DirectoryEntry.mk "image.jpg" "file" 102400 m2]) now =
        some (ReaddirReply.entries
          [(FUSE_ROOT_ID, 1, FileType.Directory, "."),
           (FUSE_ROOT_ID, 2, FileType.Directory, ".."),
           (id1, 3, FileType.Directory, "Documents"),
           (id2, 4, FileType.RegularFile, "image.jpg")], fs') ∧
      id1 ≠ id2 ∧ FUSE_ROOT_ID < id1 ∧ FUSE_ROOT_ID < id2 ∧
      id1 = (RemoteFs.new now).next_inode ∧ id2 = id1 + 1) ∧
    (∀ (fs : RemoteFs) (es : List DirectoryEntry) (now2 : Nat) r fs2,
      fs.readdir FUSE_ROOT_ID 0 (Except.ok es) now2 =
          some (ReaddirReply.entries r, fs2) →
      ∃ rest, r = (FUSE_ROOT_ID, 1, FileType.Directory, ".") ::
        (FUSE_ROOT_ID, 2, FileType.Directory, "..") :: rest) := by
  constructor
  · exact ⟨2, 3, _, rfl, by decide, by decide, by decide, rfl, rfl⟩
  · intro fs es now2 r fs2 h
    have hc : currentPathOf fs FUSE_ROOT_ID = some "/" := by
      simp [currentPathOf]
    cases hm : mergeEntries fs "/" es now2 with
    | none => simp [RemoteFs.readdir, hc, hm] at h
    | some pr =>
      obtain ⟨fetched, fsx⟩ := pr
      simp only [RemoteFs.readdir, hc, hm] at h
      rw [if_pos (show (0 : Int) < 2 by decide)] at h
      rw [Option.some.injEq, Prod.mk.injEq, ReaddirReply.entries.injEq] at h
      obtain ⟨hb, -⟩ := h
      refine ⟨(enumFromN 2 fetched).map
        (fun p => (p.2.1, ((p.1 : Int) + 1), p.2.2.1, p.2.2.2)), ?_⟩
      rw [← hb]
      have hbase : baseEntries fs FUSE_ROOT_ID "/" =
          [(FUSE_ROOT_ID, FileType.Directory, "."),
           (FUSE_ROOT_ID, FileType.Directory, "..")] := by
        simp [baseEntries, dotdotIno]
      rw [hbase]
      simp [buildReply, offsetToUsize, enumFromN]

/-- Closed instance of the always-synthesized "." and ".." entries. -/
theorem scenario1_witness :
    ∃ rest, [((FUSE_ROOT_ID : Nat), (1 : Int), FileType.Directory, "."),
        (FUSE_ROOT_ID, 2, FileType.Directory, "..")] =
      ((FUSE_ROOT_ID : Nat), (1 : Int), FileType.Directory, ".") ::
        ((FUSE_ROOT_ID : Nat), (2 : Int), FileType.Directory, "..") :: rest :=
  (scenario1 0 "a" "b").2 (RemoteFs.new 0) [] 0
    [((FUSE_ROOT_ID : Nat), (1 : Int), FileType.Directory, "."),
      (FUSE_ROOT_ID, 2, FileType.Directory, "..")] (RemoteFs.new 0) rfl

/-- The kind field survives a size rewrite. -/
theorem withSize_kind (a : FileAttr) (s : Nat) : (withSize a s).kind = a.kind := rfl

/-- C6: upserting the same parent path and child name twice with the same kind
string and size returns the same inode and the same kind both times, and the
second upsert leaves the registry completely unchanged (the size refresh
rewrites the size it already holds). -/
theorem upsert_idempotent (fs : RemoteFs) (parent name type_ : String)
    (size now now2 : Nat) (hInv : RegInv fs) :
    ∃ ino kind fs1,
      upsertChild fs (joinPath parent name) type_ size now = some (ino, kind, fs1) ∧
      upsertChild fs1 (joinPath parent name) type_ size now2 = some (ino, kind, fs1) := by
  obtain ⟨hnd1, hnd2, hnd3, hattr, hpath⟩ := hInv
  cases hcase : lookupA fs.path_to_inode (joinPath parent name) with
  | some existing =>
    have hmem : (joinPath parent name, existing) ∈ fs.path_to_inode :=
      mem_of_lookupA _ _ _ hcase
    obtain ⟨hlt, e, hem, hee⟩ := hpath _ hmem
    have hattr_lookup : lookupA fs.inode_map existing = some e.2 := by
      have h0 := lookupA_of_mem_nodup_pair fs.inode_map hnd1 e hem
      rw [hee] at h0
      exact h0
    refine ⟨existing, e.2.kind,
      { fs with inode_map := setA fs.inode_map existing (withSize e.2 size) }, ?_, ?_⟩
    · simp [upsertChild, hcase, hattr_lookup, withSize]
    · have h1 : lookupA (setA fs.inode_map existing (withSize e.2 size)) existing
          = some (withSize e.2 size) := lookupA_setA_self _ _ _
      have h2 : setA (setA fs.inode_map existing (withSize e.2 size)) existing
          (withSize e.2 size) = setA fs.inode_map existing (withSize e.2 size) :=
        setA_self_eq _ _ _ h1
      simp only [upsertChild, hcase, h1]
      rw [show ({ withSize e.2 size with size := size } : FileAttr) = withSize e.2 size from
        withSize_withSize e.2 size size]
      rw [h2]
      rfl
  | none =>
    refine ⟨fs.next_inode,
      (if type_ = "directory" then FileType.Directory else FileType.RegularFile),
      { inode_map := setA fs.inode_map fs.next_inode
          (create_file_attr now fs.next_inode
            (if type_ = "directory" then FileType.Directory else FileType.RegularFile)
            size
            (if (if type_ = "directory" then FileType.Directory else FileType.RegularFile)
                = FileType.Directory then 0o755 else 0o644))
        path_to_inode := setA fs.path_to_inode (joinPath parent name) fs.next_inode
        next_inode := fs.next_inode + 1 }, ?_, ?_⟩
    · simp [upsertChild, hcase]
    · set kind := (if type_ = "directory" then FileType.Directory
        else FileType.RegularFile) with hkind
      set perm := (if kind = FileType.Directory then 0o755 else 0o644) with hperm
      set attr := create_file_attr now fs.next_inode kind size perm with hattr_def
      have hp1 : lookupA (setA fs.path_to_inode (joinPath parent name) fs.next_inode)
          (joinPath parent name) = some fs.next_inode := lookupA_setA_self _ _ _
      have hi1 : lookupA (setA fs.inode_map fs.next_inode attr) fs.next_inode
          = some attr := lookupA_setA_self _ _ _
      have hsz : withSize attr size = attr := by
        rw [hattr_def]
        rfl
      have h2 : setA (setA fs.inode_map fs.next_inode attr) fs.next_inode
          (withSize attr size) = setA fs.inode_map fs.next_inode attr := by
        rw [hsz]
        exact setA_self_eq _ _ _ hi1
      have h2' : setA (setA fs.inode_map fs.next_inode attr) fs.next_inode attr
          = setA fs.inode_map fs.next_inode attr := setA_self_eq _ _ _ hi1
      simp only [upsertChild, hp1, hi1]
      rw [show ({ attr with size := size } : FileAttr) = attr from hsz]
      rw [h2']
      rfl

/-- Closed instance of upsert idempotence at the fresh registry. -/
theorem upsert_idempotent_witness :
    RegInv (RemoteFs.new 0) ∧
    ∃ ino kind fs1,
      upsertChild (RemoteFs.new 0) (joinPath "/" "folder1") "directory" 0 3 =
        some (ino, kind, fs1) ∧
      upsertChild fs1 (joinPath "/" "folder1") "directory" 0 4 =
        some (ino, kind, fs1) :=
  ⟨by decide, upsert_idempotent (RemoteFs.new 0) "/" "folder1" "directory" 0 3 4 (by decide)⟩

/-- C9: the whole merge loop runs under a single acquisition of all three
registry locks (fuse.rs lines 206-236), after the remote fetch has completed;
so two concurrent `readdir(root, 0)` calls serialize into one of the two
orders of their atomic merges.  In either order, when both remote listings
contain an entry named "folder1", the final registry binds "/folder1" to a
single inode, every binding of that path agrees on it, and both calls report
that same inode for "folder1". -/
theorem concurrent_converge (fs : RemoteFs) (es1 es2 : List DirectoryEntry)
    (now1 now2 : Nat) (first : Bool) (hInv : RegInv fs)
    (h1 : ∃ e ∈ es1, e.name = "folder1") (h2 : ∃ e ∈ es2, e.name = "folder1") :
    ∃ r1 fs1 r2 fs2 k,
      mergeEntries fs "/" (if first then es1 else es2) now1 = some (r1, fs1) ∧
      mergeEntries fs1 "/" (if first then es2 else es1) now2 = some (r2, fs2) ∧
      lookupA fs2.path_to_inode "/folder1" = some k ∧
      (∀ q ∈ fs2.path_to_inode, q.1 = "/folder1" → q.2 = k) ∧
      (∃ x ∈ r1, x.2.2 = "folder1") ∧ (∃ x ∈ r2, x.2.2 = "folder1") ∧
      (∀ x ∈ r1, x.2.2 = "folder1" → x.1 = k) ∧
      (∀ x ∈ r2, x.2.2 = "folder1" → x.1 = k) := by
  have hA : ∃ e ∈ (if first then es1 else es2), e.name = "folder1" := by
    cases first <;> simpa
  have hB : ∃ e ∈ (if first then es2 else es1), e.name = "folder1" := by
    cases first <;> simpa
  obtain ⟨r1, fs1, hm1, hInv1, hext1, hnames1, hbinds1⟩ :=
    mergeEntries_spec (if first then es1 else es2) fs "/" now1 hInv
  obtain ⟨r2, fs2, hm2, hInv2, hext2, hnames2, hbinds2⟩ :=
    mergeEntries_spec (if first then es2 else es1) fs1 "/" now2 hInv1
  have hjoin : joinPath "/" "folder1" = "/folder1" := rfl
  have hx1 : ∃ x ∈ r1, x.2.2 = "folder1" := by
    have hmm : "folder1" ∈ r1.map (fun x => x.2.2) := by
      rw [hnames1]
      rcases hA with ⟨e, he, hen⟩
      exact List.mem_map.mpr ⟨e, he, hen⟩
    rcases List.mem_map.mp hmm with ⟨x, hx, hxn⟩
    exact ⟨x, hx, hxn⟩
  have hx2 : ∃ x ∈ r2, x.2.2 = "folder1" := by
    have hmm : "folder1" ∈ r2.map (fun x => x.2.2) := by
      rw [hnames2]
      rcases hB with ⟨e, he, hen⟩
      exact List.mem_map.mpr ⟨e, he, hen⟩
    rcases List.mem_map.mp hmm with ⟨x, hx, hxn⟩
    exact ⟨x, hx, hxn⟩
  obtain ⟨x1, hx1m, hx1n⟩ := hx1
  have hb1 : lookupA fs2.path_to_inode "/folder1" = some x1.1 := by
    have h0 := hbinds1 x1 hx1m
    rw [hx1n, hjoin] at h0
    exact hext2.1 _ _ h0
  refine ⟨r1, fs1, r2, fs2, x1.1, hm1, hm2, hb1, ?_, ⟨x1, hx1m, hx1n⟩, hx2, ?_, ?_⟩
  · intro q hq hq1
    have hl := lookupA_of_mem_nodup_pair fs2.path_to_inode hInv2.2.1 q hq
    rw [hq1] at hl
    rw [hb1] at hl
    exact (Option.some.inj hl).symm
  · intro x hx hxn
    have h0 := hbinds1 x hx
    rw [hxn, hjoin] at h0
    have h0' := hext2.1 _ _ h0
    rw [hb1] at h0'
    exact (Option.some.inj h0').symm
  · intro x hx hxn
    have h0 := hbinds2 x hx
    rw [hxn, hjoin] at h0
    rw [hb1] at h0
    exact (Option.some.inj h0).symm

/-- Closed instance of concurrent convergence. -/
theorem concurrent_converge_witness :
    RegInv (RemoteFs.new 0) ∧
    (∃ e ∈ [DirectoryEntry.mk "folder1" "directory" 0 "t1"], e.name = "folder1") ∧
    (∃ r1 fs1 r2 fs2 k,
      mergeEntries (RemoteFs.new 0) "/"
          (if true then [DirectoryEntry.mk "folder1" "directory" 0 "t1"]
            else [DirectoryEntry.mk "folder1" "directory" 0 "t2"]) 3 = some (r1, fs1) ∧
      mergeEntries fs1 "/"
          (if true then [DirectoryEntry.mk "folder1" "directory" 0 "t2"]
            else [DirectoryEntry.mk "folder1" "directory" 0 "t1"]) 4 = some (r2, fs2) ∧
      lookupA fs2.path_to_inode "/folder1" = some k ∧
      (∀ q ∈ fs2.path_to_inode, q.1 = "/folder1" → q.2 = k) ∧
      (∃ x ∈ r1, x.2.2 = "folder1") ∧ (∃ x ∈ r2, x.2.2 = "folder1") ∧
      (∀ x ∈ r1, x.2.2 = "folder1" → x.1 = k) ∧
      (∀ x ∈ r2, x.2.2 = "folder1" → x.1 = k)) :=
  ⟨by decide, ⟨DirectoryEntry.mk "folder1" "directory" 0 "t1", by simp, rfl⟩,
    concurrent_converge (RemoteFs.new 0)
      [DirectoryEntry.mk "folder1" "directory" 0 "t1"]
      [DirectoryEntry.mk "folder1" "directory" 0 "t2"] 3 4 true (by decide)
      ⟨DirectoryEntry.mk "folder1" "directory" 0 "t1", by simp, rfl⟩
      ⟨DirectoryEntry.mk "folder1" "directory" 0 "t2", by simp, rfl⟩⟩

/-- Two listings equal except for `modified_at` merge identically. -/
theorem mergeEntries_sameShape (es : List DirectoryEntry) :
    ∀ es', sameShape es es' = true →
    ∀ fs cur now, mergeEntries fs cur es now = mergeEntries fs cur es' now := by
  induction es with
  | nil =>
    intro es' h fs cur now
    cases es' with
    | nil => rfl
    | cons e t => simp [sameShape] at h
  | cons e t ih =>
    intro es' h fs cur now
    cases es' with
    | nil => simp [sameShape] at h
    | cons e2 t2 =>
      simp only [sameShape, Bool.and_eq_true, beq_iff_eq] at h
      obtain ⟨⟨⟨hn, ht⟩, hs⟩, htail⟩ := h
      simp only [mergeEntries, hn, ht, hs, ih t2 htail]

/-- C10: the remote `modified_at` strings never influence `readdir` — two
listings identical except for `modified_at` produce the same reply and the
same registry state — and every timestamp `create_file_attr` stores comes
from the local clock at attribute-creation time. -/
theorem modified_at_ignored (fs : RemoteFs) (ino : Nat) (offset : Int) (now : Nat)
    (es es' : List DirectoryEntry) (h : sameShape es es' = true) :
    fs.readdir ino offset (Except.ok es) now =
      fs.readdir ino offset (Except.ok es') now ∧
    (∀ now2 i k s p, (create_file_attr now2 i k s p).atime = now2 ∧
      (create_file_attr now2 i k s p).mtime = now2 ∧
      (create_file_attr now2 i k s p).ctime = now2 ∧
      (create_file_attr now2 i k s p).crtime = now2) := by
  refine ⟨?_, fun now2 i k s p => ⟨rfl, rfl, rfl, rfl⟩⟩
  cases hc : currentPathOf fs ino with
  | none => simp [RemoteFs.readdir, hc]
  | some cur =>
    by_cases hoff : offset < 2
    · simp [RemoteFs.readdir, hc, hoff, mergeEntries_sameShape es es' h]
    · simp [RemoteFs.readdir, hc, hoff]

/-- Closed instance of modified_at noninterference. -/
theorem modified_at_ignored_witness :
    sameShape [DirectoryEntry.mk "a.txt" "file" 5 "2024-01-01T00:00:00Z"]
        [DirectoryEntry.mk "a.txt" "file" 5 "2099-12-31T23:59:59Z"] = true ∧
    (RemoteFs.new 0).readdir FUSE_ROOT_ID 0
        (Except.ok [DirectoryEntry.mk "a.txt" "file" 5 "2024-01-01T00:00:00Z"]) 0 =
      (RemoteFs.new 0).readdir FUSE_ROOT_ID 0
        (Except.ok [DirectoryEntry.mk "a.txt" "file" 5 "2099-12-31T23:59:59Z"]) 0 :=
  ⟨by decide, (modified_at_ignored (RemoteFs.new 0) FUSE_ROOT_ID 0 0
    [DirectoryEntry.mk "a.txt" "file" 5 "2024-01-01T00:00:00Z"]
    [DirectoryEntry.mk "a.txt" "file" 5 "2099-12-31T23:59:59Z"] (by decide)).1⟩
